import Mathlib

/-!
Verification of the benchmarking harness in `scripts/benchmark_python_hnswlib.py`
and the verse loaders in `scripts/generate_embeddings.py` /
`scripts/generate_embeddings_large.py`, via a shallow embedding of the
relevant functions.  Machine integers in the scripts are arbitrary-precision
Python ints, modelled by `Nat`/`Int`; real-valued timing arithmetic is
modelled by `ℚ` (the scripts only divide and multiply measured floats).
-/

namespace HnswBench

/-- Python `range(start, stop, step)` for a positive `step`:
the list `start, start+step, ...` of all such values below `stop`. -/
def pyRange (start stop step : Nat) : List Nat :=
  (List.range ((stop - start + step - 1) / step)).map (fun k => start + k * step)

/-- Source `test_with_multiprocessing`, lines 217–218:
`batch_size = len(queries) // num_proc`;
`query_batches = [queries[i:i+batch_size] for i in range(0, len(queries), batch_size)]`. -/
def query_batches (queries : List α) (num_proc : Nat) : List (List α) :=
  let bs := queries.length / num_proc
  (pyRange 0 queries.length bs).map (fun i => (queries.drop i).take bs)

/-- Joining `n` consecutive stride-`bs` slices of `l` yields the first
`n * bs` elements of `l`. -/
theorem join_slices (bs : Nat) (l : List α) :
    ∀ n : Nat, ((List.range n).map (fun k => (l.drop (k * bs)).take bs)).flatten
      = l.take (n * bs) := by
  intro n
  induction n with
  | zero => simp
  | succ n ih =>
    rw [List.range_succ, List.map_append, List.flatten_append, ih]
    simp only [List.map_cons, List.map_nil, List.flatten_cons, List.flatten_nil,
      List.append_nil]
    rw [Nat.succ_mul, List.take_add]

/-- C2: for every query list and every worker count `p` with
`1 ≤ p ≤ length`, concatenating the per-worker batches produced by the
isolated-processes partition, in order, yields exactly the original
query list: no query dropped, none duplicated. -/
theorem isolated_partition_join (queries : List α) (p : Nat)
    (h1 : 1 ≤ p) (h2 : p ≤ queries.length) :
    (query_batches queries p).flatten = queries := by
  have hbs : 1 ≤ queries.length / p := by
    rw [Nat.one_le_div_iff (by omega)]
    exact h2
  set bs := queries.length / p with hbsdef
  set n := (queries.length - 0 + bs - 1) / bs with hndef
  have hmap : query_batches queries p
      = (List.range n).map (fun k => (queries.drop (k * bs)).take bs) := by
    simp only [query_batches, pyRange, List.map_map, ← hbsdef, ← hndef,
      Function.comp, Nat.zero_add]
    rfl
  rw [hmap, join_slices]
  apply List.take_of_length_le
  have hdm := Nat.div_add_mod (queries.length - 0 + bs - 1) bs
  have hmlt : (queries.length - 0 + bs - 1) % bs < bs := Nat.mod_lt _ (by omega)
  rw [← hndef] at hdm
  rw [Nat.mul_comm]
  omega

/-- Witness for C2 at a concrete input. -/
theorem isolated_partition_join_witness :
    1 ≤ 2 ∧ 2 ≤ [10, 20, 30].length ∧
      (query_batches [10, 20, 30] 2).flatten = [10, 20, 30] :=
  ⟨by decide, by decide, isolated_partition_join [10, 20, 30] 2 (by decide) (by decide)⟩

/-- The number of batches produced by the partition, directly from the
list comprehension: `ceil(M / (M // p))` batches. -/
theorem query_batches_length (queries : List α) (p : Nat) :
    (query_batches queries p).length
      = (queries.length + queries.length / p - 1) / (queries.length / p) := by
  simp [query_batches, pyRange]

/-- Every batch is a stride-`bs` slice of the query list at offset `k * bs`
for some `k` below the batch count. -/
theorem query_batches_mem (queries : List α) (p : Nat) (b : List α)
    (hb : b ∈ query_batches queries p) :
    ∃ k, k < (queries.length + queries.length / p - 1) / (queries.length / p)
      ∧ b = (queries.drop (k * (queries.length / p))).take (queries.length / p) := by
  simp only [query_batches, pyRange, List.map_map, List.mem_map,
    List.mem_range] at hb
  obtain ⟨k, hk, hkb⟩ := hb
  exact ⟨k, by simpa using hk, by simpa [Nat.zero_add] using hkb.symm⟩

/-- C3 counterexample: with 10 queries and 4 workers the code produces
5 batches of 2 queries each, not 4 batches with the remainder appended
to the last one. -/
theorem partition_batch_count_cex :
    (query_batches (List.range 10) 4).map List.length = [2, 2, 2, 2, 2]
    ∧ (query_batches (List.range 10) 4).length ≠ 4 := by decide

/-- Arithmetic facts about the ceiling batch count `⌈M / bs⌉`:
`n * bs` covers `M`, and `(n - 1) * bs` does not. -/
theorem ceil_mul_bounds (M bs : Nat) (hbs : 1 ≤ bs) (hM : 1 ≤ M) :
    M ≤ ((M + bs - 1) / bs) * bs ∧ ((M + bs - 1) / bs - 1) * bs < M := by
  have hdm := Nat.div_add_mod (M + bs - 1) bs
  have hmlt : (M + bs - 1) % bs < bs := Nat.mod_lt _ (by omega)
  have hcomm : bs * ((M + bs - 1) / bs) = ((M + bs - 1) / bs) * bs :=
    Nat.mul_comm _ _
  have hsub : ((M + bs - 1) / bs - 1) * bs = ((M + bs - 1) / bs) * bs - 1 * bs :=
    Nat.sub_mul _ _ _
  have hone : 1 * bs = bs := Nat.one_mul bs
  omega

/-- C3 amended: the partition produces `⌈M / (M / p)⌉` contiguous batches
(`p` of them exactly when `p ∣ M`), every batch has between 1 and `M / p`
elements, and every batch except possibly the last has exactly `M / p`
elements. -/
theorem partition_batch_shape (queries : List α) (p : Nat)
    (h1 : 1 ≤ p) (h2 : p ≤ queries.length) :
    (query_batches queries p).length
        = (queries.length + queries.length / p - 1) / (queries.length / p)
    ∧ (p ∣ queries.length → (query_batches queries p).length = p)
    ∧ (∀ b ∈ query_batches queries p,
        1 ≤ b.length ∧ b.length ≤ queries.length / p)
    ∧ (∀ i (hi : i + 1 < (query_batches queries p).length),
        ((query_batches queries p).get ⟨i, by omega⟩).length
          = queries.length / p) := by
  have hbs : 1 ≤ queries.length / p := (Nat.one_le_div_iff (by omega)).mpr h2
  have hcount := query_batches_length queries p
  have hceil := ceil_mul_bounds queries.length (queries.length / p) hbs (by omega)
  refine ⟨hcount, ?_, ?_, ?_⟩
  · intro hdvd
    have hmul : queries.length / p * p = queries.length := Nat.div_mul_cancel hdvd
    have hco : queries.length + queries.length / p - 1
        = queries.length / p * p + (queries.length / p - 1) := by omega
    rw [hcount, hco, Nat.mul_add_div (by omega), Nat.div_eq_of_lt (by omega)]
    omega
  · intro b hb
    obtain ⟨k, hk, rfl⟩ := query_batches_mem queries p b hb
    have hkmul : k * (queries.length / p)
        ≤ ((queries.length + queries.length / p - 1) / (queries.length / p) - 1)
          * (queries.length / p) :=
      Nat.mul_le_mul_right _ (by omega)
    simp only [List.length_take, List.length_drop]
    omega
  · intro i hi
    rw [hcount] at hi
    have hib : (query_batches queries p).get ⟨i, by omega⟩
        = (queries.drop (i * (queries.length / p))).take (queries.length / p) := by
      simp only [query_batches, pyRange, List.map_map, List.get_eq_getElem,
        List.getElem_map, List.getElem_range, Function.comp, Nat.zero_add]
    rw [hib]
    have hkmul : (i + 1) * (queries.length / p)
        ≤ ((queries.length + queries.length / p - 1) / (queries.length / p) - 1)
          * (queries.length / p) :=
      Nat.mul_le_mul_right _ (by omega)
    have harr : (i + 1) * (queries.length / p)
        = i * (queries.length / p) + queries.length / p := by ring
    simp only [List.length_take, List.length_drop]
    omega

/-- Witness for the amended C3 at a concrete input. -/
theorem partition_batch_shape_witness :
    1 ≤ 2 ∧ 2 ≤ [10, 20, 30, 40].length ∧
      ((query_batches [10, 20, 30, 40] 2).length
          = ([10, 20, 30, 40].length + [10, 20, 30, 40].length / 2 - 1)
            / ([10, 20, 30, 40].length / 2)
        ∧ (2 ∣ [10, 20, 30, 40].length
            → (query_batches [10, 20, 30, 40] 2).length = 2)
        ∧ (∀ b ∈ query_batches [10, 20, 30, 40] 2,
            1 ≤ b.length ∧ b.length ≤ [10, 20, 30, 40].length / 2)
        ∧ (∀ i (hi : i + 1 < (query_batches [10, 20, 30, 40] 2).length),
            ((query_batches [10, 20, 30, 40] 2).get ⟨i, by omega⟩).length
              = [10, 20, 30, 40].length / 2)) :=
  ⟨by decide, by decide,
    partition_batch_shape [10, 20, 30, 40] 2 (by decide) (by decide)⟩

/-- Module constant `NUM_QUERIES = 100` (line 19). -/
def NUM_QUERIES : Nat := 100

/-- Module constant `THREAD_COUNTS = [1, 5, 10, 20, 50]` (line 21). -/
def THREAD_COUNTS : List Nat := [1, 5, 10, 20, 50]

/-- The process counts tried by `test_with_multiprocessing` (line 212). -/
def PROC_COUNTS : List Nat := [2, 4, 8]

/-- Source `run_benchmark`, line 134: `avg_latency = search_time / NUM_QUERIES`
(milliseconds per query; `search_time` is in milliseconds). -/
def avg_latency (search_time num_queries : ℚ) : ℚ := search_time / num_queries

/-- Source `run_benchmark`, line 135: `qps = (NUM_QUERIES * 1000) / search_time`
(queries per second; the factor 1000 converts the millisecond duration). -/
def qps (search_time num_queries : ℚ) : ℚ := num_queries * 1000 / search_time

/-- C4: for a timing sample of positive duration `d` (ms) and query count
`q`, the derived metrics satisfy `latency_per_query = d / q` and
`queries_per_second = q / (d in seconds)`; with 50 queries the latency is
`d / 50`. -/
theorem metrics_latency_qps (d q : ℚ) (_hd : 0 < d) (_hq : 0 < q) :
    avg_latency d q = d / q
    ∧ qps d q = q / (d / 1000)
    ∧ avg_latency d 50 = d / 50 := by
  refine ⟨rfl, ?_, rfl⟩
  show q * 1000 / d = q / (d / 1000)
  rw [div_div_eq_mul_div]

/-- Witness for C4 at a concrete input. -/
theorem metrics_latency_qps_witness :
    (0 : ℚ) < 2 ∧ (0 : ℚ) < 50 ∧
      (avg_latency 2 50 = 2 / 50
        ∧ qps 2 50 = 50 / (2 / 1000)
        ∧ avg_latency 2 50 = 2 / 50) :=
  ⟨by norm_num, by norm_num, metrics_latency_qps 2 50 (by norm_num) (by norm_num)⟩

/-- Error taxonomy observable in `run_benchmark`.  `configError` models the
exception raised when the query sample cannot be drawn (numpy's
`np.random.choice(..., replace=False)` raises when the requested sample
exceeds the population; the spec's taxonomy names this `ConfigError`). -/
inductive BenchError | configError
deriving DecidableEq

/-- The phases of `run_benchmark` in program order. -/
inductive BenchPhase | generateData | sampleQueries | buildIndex | warmup | sweep
deriving DecidableEq

/-- Numpy `np.random.choice(n, m, replace=False)` (line 101): fails iff `m > n`;
the concrete indices abstract the random draw as `m` distinct labels
below `n`. -/
def np_choice (n m : Nat) : Except BenchError (List Nat) :=
  if m ≤ n then Except.ok ((List.range n).take m)
  else Except.error BenchError.configError

/-- The phase sequence of `run_benchmark` (lines 100–137): data generation
(line 100), query sampling (line 101), index build (line 113), warm-up
(lines 117–118), benchmark sweep (lines 127–145); an exception stops the
sequence at the phase that raised it. -/
def run_benchmark_phases (n m : Nat) : List BenchPhase × Option BenchError :=
  match np_choice n m with
  | Except.error e => ([BenchPhase.generateData, BenchPhase.sampleQueries], some e)
  | Except.ok _ =>
      ([BenchPhase.generateData, BenchPhase.sampleQueries, BenchPhase.buildIndex,
        BenchPhase.warmup, BenchPhase.sweep], none)

/-- C6: if the requested query-sample size exceeds the corpus size, the run
fails with the config error and the index-build phase is never reached. -/
theorem config_error_before_build (n m : Nat) (h : n < m) :
    (run_benchmark_phases n m).2 = some BenchError.configError
    ∧ BenchPhase.buildIndex ∉ (run_benchmark_phases n m).1 := by
  unfold run_benchmark_phases np_choice
  rw [if_neg (by omega)]
  exact ⟨rfl, by decide⟩

/-- Witness for C6: a corpus of 10 with 50 requested queries. -/
theorem config_error_before_build_witness :
    10 < 50 ∧
      ((run_benchmark_phases 10 50).2 = some BenchError.configError
        ∧ BenchPhase.buildIndex ∉ (run_benchmark_phases 10 50).1) :=
  ⟨by decide, config_error_before_build 10 50 (by decide)⟩

/-- Rows emitted by the process sweep of `test_with_multiprocessing`
(lines 204–229): the single-process baseline row (line 209) and one
measured row per executed process count (line 229).  The source has no
constructor for a skip notice; `skipped` exists only so its absence from
the emitted rows is expressible. -/
inductive SweepEntry
  | measured (procs : Nat)
  | skipped (procs : Nat) (reason : String)
deriving DecidableEq

/-- The rows printed by `test_with_multiprocessing`: the baseline, then for
each `num_proc` in `[2, 4, 8]` a measured row unless
`num_proc > cpu_count()`, in which case the loop body is skipped by
`continue` (lines 213–214), emitting nothing. -/
def mp_sweep_rows (cpu_count : Nat) : List SweepEntry :=
  SweepEntry.measured 1 ::
    (PROC_COUNTS.filter (fun p => p ≤ cpu_count)).map SweepEntry.measured

/-- C5 counterexample: with one CPU, every multi-process configuration is
skipped and the output is the baseline row alone — no skipped row with a
reason is recorded for worker count 2 (or any other). -/
theorem skip_row_cex : mp_sweep_rows 1 = [SweepEntry.measured 1] := rfl

/-- C5 amended: an oversubscribed configuration is skipped silently — no
row of any kind is recorded for it — while the sweep still emits the
baseline row and a measured row for every configuration within the
available parallelism; the sweep never aborts (the row function is total). -/
theorem oversubscribed_silently_skipped (cpu_count : Nat) :
    (∀ e ∈ mp_sweep_rows cpu_count, ∀ p s, e ≠ SweepEntry.skipped p s)
    ∧ (∀ p ∈ PROC_COUNTS, p ≤ cpu_count
        → SweepEntry.measured p ∈ mp_sweep_rows cpu_count)
    ∧ (∀ p ∈ PROC_COUNTS, cpu_count < p
        → SweepEntry.measured p ∉ mp_sweep_rows cpu_count)
    ∧ SweepEntry.measured 1 ∈ mp_sweep_rows cpu_count := by
  refine ⟨?_, ?_, ?_, List.mem_cons_self _ _⟩
  · intro e he p s
    simp only [mp_sweep_rows, List.mem_cons, List.mem_map] at he
    rcases he with rfl | ⟨a, _, rfl⟩ <;> simp
  · intro p hp hle
    simp only [mp_sweep_rows, List.mem_cons, List.mem_map]
    exact Or.inr ⟨p, List.mem_filter.mpr ⟨hp, by simpa using hle⟩, rfl⟩
  · intro p hp hgt hmem
    simp only [mp_sweep_rows, List.mem_cons, List.mem_map] at hmem
    rcases hmem with heq | ⟨a, ha, heq⟩
    · have h1 : p = 1 := by injection heq
      subst h1
      simp [PROC_COUNTS] at hp
    · have hap : a = p := by injection heq
      subst hap
      have := (List.mem_filter.mp ha).2
      simp only [decide_eq_true_eq] at this
      omega

/-- Witness for the amended C5: with 2 CPUs, worker count 2 is measured
and worker count 4 leaves no row. -/
theorem oversubscribed_silently_skipped_witness :
    2 ∈ PROC_COUNTS ∧ 2 ≤ 2 ∧ 4 ∈ PROC_COUNTS ∧ 2 < 4
    ∧ SweepEntry.measured 2 ∈ mp_sweep_rows 2
    ∧ SweepEntry.measured 4 ∉ mp_sweep_rows 2 :=
  ⟨by decide, by decide, by decide, by decide,
    (oversubscribed_silently_skipped 2).2.1 2 (by decide) (by decide),
    (oversubscribed_silently_skipped 2).2.2.1 4 (by decide) (by decide)⟩

/-- File-system events on the snapshot `/tmp/hnsw_index.bin` in
`test_with_multiprocessing`: `index.save_index(index_file)` (line 183)
creates it and `os.remove(index_file)` (lines 234–235) deletes it. -/
inductive FsEvent | create | remove
deriving DecidableEq

/-- The snapshot events of one `test_with_multiprocessing` call.
`failsDuringPool` models an exception raised inside the
`with Pool(num_proc)` block (lines 222–223); the function has no
try/finally, so such an exception propagates to the caller before the
cleanup at lines 233–235 runs. -/
def mp_snapshot_events (failsDuringPool : Bool) : List FsEvent :=
  [FsEvent.create] ++ (if failsDuringPool then [] else [FsEvent.remove])

/-- Whether the snapshot file exists after a sequence of events. -/
def snapshot_exists (evs : List FsEvent) : Bool :=
  evs.foldl
    (fun _ e => match e with | FsEvent.create => true | FsEvent.remove => false)
    false

/-- C7 counterexample: on the early-abort exit path the snapshot file is
still present when the run terminates. -/
theorem snapshot_leaks_on_abort :
    snapshot_exists (mp_snapshot_events true) = true := rfl

/-- C7 amended: the snapshot file is removed on the normal-completion exit
path, and on that path only — an abort during the pooled search leaves the
file behind. -/
theorem snapshot_cleanup_normal_only :
    ∀ failsDuringPool : Bool,
      snapshot_exists (mp_snapshot_events failsDuringPool) = failsDuringPool := by
  decide

/-- One entry of the `results` list built in `run_benchmark`,
lines 139–145. -/
structure ResultRow where
  threads : Nat
  build_ms : ℚ
  search_ms : ℚ
  latency_ms : ℚ
  qps : ℚ
deriving DecidableEq

/-- Python `max(results, key=lambda x: x['qps'])` (line 151), split as the
first row plus the rest so non-emptiness is structural: Python `max`
returns the earliest row attaining the maximal `qps`. -/
def max_by_qps (r0 : ResultRow) (rest : List ResultRow) : ResultRow :=
  rest.foldl (fun acc r => if acc.qps < r.qps then r else acc) r0

/-- The summary block of `run_benchmark`, lines 150–156:
`single_qps = results[0]['qps']`, `best_result = max(results, key=qps)`,
and the printed speedup is `best_result['qps'] / single_qps`. -/
def summary (r0 : ResultRow) (rest : List ResultRow) : ResultRow × ℚ :=
  (max_by_qps r0 rest, (max_by_qps r0 rest).qps / r0.qps)

/-- The fold behind Python `max`: the result is one of the rows, and it
dominates the initial row and every listed row. -/
theorem max_by_qps_spec (rest : List ResultRow) :
    ∀ r0 : ResultRow,
      max_by_qps r0 rest ∈ r0 :: rest
      ∧ r0.qps ≤ (max_by_qps r0 rest).qps
      ∧ ∀ r ∈ rest, r.qps ≤ (max_by_qps r0 rest).qps := by
  induction rest with
  | nil => intro r0; simp [max_by_qps]
  | cons a l ih =>
    intro r0
    have hstep : max_by_qps r0 (a :: l)
        = max_by_qps (if r0.qps < a.qps then a else r0) l := rfl
    obtain ⟨hm, hle, hall⟩ := ih (if r0.qps < a.qps then a else r0)
    rw [hstep]
    have hr0 : r0.qps ≤ (if r0.qps < a.qps then a else r0).qps := by
      by_cases h : r0.qps < a.qps
      · rw [if_pos h]; exact le_of_lt h
      · rw [if_neg h]
    have ha : a.qps ≤ (if r0.qps < a.qps then a else r0).qps := by
      by_cases h : r0.qps < a.qps
      · rw [if_pos h]
      · rw [if_neg h]; exact le_of_not_lt h
    refine ⟨?_, le_trans hr0 hle, ?_⟩
    · rcases List.mem_cons.mp hm with hm | hm
      · by_cases h : r0.qps < a.qps
        · rw [if_pos h] at hm
          rw [if_pos h, hm]
          exact List.mem_cons_of_mem _ (List.mem_cons_self a l)
        · rw [if_neg h] at hm
          rw [if_neg h, hm]
          exact List.mem_cons_self r0 (a :: l)
      · exact List.mem_cons_of_mem _ (List.mem_cons_of_mem _ hm)
    · intro r hr
      rcases List.mem_cons.mp hr with rfl | hr
      · exact le_trans ha hle
      · exact hall r hr

/-- C9: for a non-empty result list whose baseline throughput is positive,
the summary names a row of maximal `qps` as best, reports the speedup as
that row's `qps` divided by the baseline's `qps`, and the baseline's own
speedup ratio is exactly 1. -/
theorem summary_best_and_speedup (r0 : ResultRow) (rest : List ResultRow)
    (hq : 0 < r0.qps) :
    (summary r0 rest).1 ∈ r0 :: rest
    ∧ (∀ r ∈ r0 :: rest, r.qps ≤ (summary r0 rest).1.qps)
    ∧ (summary r0 rest).2 = (summary r0 rest).1.qps / r0.qps
    ∧ r0.qps / r0.qps = 1 := by
  obtain ⟨hm, hle, hall⟩ := max_by_qps_spec rest r0
  refine ⟨hm, ?_, rfl, div_self (ne_of_gt hq)⟩
  intro r hr
  rcases List.mem_cons.mp hr with rfl | hr
  · exact hle
  · exact hall r hr

/-- Witness for C9 at a concrete two-row result list. -/
theorem summary_best_and_speedup_witness :
    (0 : ℚ) < (ResultRow.mk 1 9 50 (1/2) 2000).qps
    ∧ ((summary (ResultRow.mk 1 9 50 (1/2) 2000) [ResultRow.mk 5 9 25 (1/4) 4000]).1
          ∈ ResultRow.mk 1 9 50 (1/2) 2000 :: [ResultRow.mk 5 9 25 (1/4) 4000]
        ∧ (∀ r ∈ ResultRow.mk 1 9 50 (1/2) 2000 :: [ResultRow.mk 5 9 25 (1/4) 4000],
            r.qps ≤ (summary (ResultRow.mk 1 9 50 (1/2) 2000)
              [ResultRow.mk 5 9 25 (1/4) 4000]).1.qps)
        ∧ (summary (ResultRow.mk 1 9 50 (1/2) 2000) [ResultRow.mk 5 9 25 (1/4) 4000]).2
            = (summary (ResultRow.mk 1 9 50 (1/2) 2000)
                [ResultRow.mk 5 9 25 (1/4) 4000]).1.qps
              / (ResultRow.mk 1 9 50 (1/2) 2000).qps
        ∧ (ResultRow.mk 1 9 50 (1/2) 2000).qps / (ResultRow.mk 1 9 50 (1/2) 2000).qps
            = 1) :=
  ⟨by norm_num,
    summary_best_and_speedup (ResultRow.mk 1 9 50 (1/2) 2000)
      [ResultRow.mk 5 9 25 (1/4) 4000] (by norm_num)⟩

/-- How an index comes into existence: `init_index` + `add_items` builds
one from the corpus; `load_index` rehydrates one from the snapshot file. -/
inductive IndexAcq | buildFromScratch | loadSnapshot
deriving DecidableEq

/-- Index acquisitions performed by `test_with_multiprocessing`: the
canonical build (lines 176–178), then — for every executed process
configuration — one `idx.load_index(index_file)` (line 190) per batch task
handed to the pool (one task per entry of `query_batches`, line 219). -/
def mp_index_events (cpu_count num_queries : Nat) : List IndexAcq :=
  IndexAcq.buildFromScratch ::
    ((PROC_COUNTS.filter (fun p => p ≤ cpu_count)).map
      (fun p => (query_batches (List.range num_queries) p).map
        (fun _ => IndexAcq.loadSnapshot))).flatten

/-- Index acquisitions of a full `__main__` run (lines 250–253):
`run_benchmark` builds its own index (line 113), then
`test_with_multiprocessing` runs. -/
def program_index_events (cpu_count num_queries : Nat) : List IndexAcq :=
  IndexAcq.buildFromScratch :: mp_index_events cpu_count num_queries

/-- C1 counterexample: a full program run (8 CPUs, the script's 100
queries) builds two indices from the corpus, not one. -/
theorem program_builds_two_indices_cex :
    (program_index_events 8 NUM_QUERIES).count IndexAcq.buildFromScratch = 2
    ∧ (program_index_events 8 NUM_QUERIES).count IndexAcq.buildFromScratch ≠ 1 := by
  decide

/-- C1 amended: each of the two benchmark phases builds its own canonical
index — two from-scratch builds per program run — and within the
multiprocessing phase exactly one index is built from scratch while every
worker acquisition after it is a snapshot load. -/
theorem canonical_index_per_sweep (cpu_count num_queries : Nat) :
    (program_index_events cpu_count num_queries).count IndexAcq.buildFromScratch = 2
    ∧ (mp_index_events cpu_count num_queries).count IndexAcq.buildFromScratch = 1
    ∧ ∀ e ∈ (mp_index_events cpu_count num_queries).tail,
        e = IndexAcq.loadSnapshot := by
  have htail : ∀ e ∈ (mp_index_events cpu_count num_queries).tail,
      e = IndexAcq.loadSnapshot := by
    intro e he
    simp only [mp_index_events, List.tail_cons, List.mem_flatten,
      List.mem_map] at he
    obtain ⟨l, ⟨p, hp, rfl⟩, hel⟩ := he
    obtain ⟨b, hb, rfl⟩ := List.mem_map.mp hel
    rfl
  have hnotin : IndexAcq.buildFromScratch
      ∉ (mp_index_events cpu_count num_queries).tail := by
    intro hin
    exact absurd (htail _ hin) (by decide)
  have hmp : (mp_index_events cpu_count num_queries).count
      IndexAcq.buildFromScratch = 1 := by
    have hcons : mp_index_events cpu_count num_queries
        = IndexAcq.buildFromScratch
          :: (mp_index_events cpu_count num_queries).tail := rfl
    rw [hcons, List.count_cons_self, List.count_eq_zero.mpr hnotin]
  refine ⟨?_, hmp, htail⟩
  show (IndexAcq.buildFromScratch
      :: mp_index_events cpu_count num_queries).count IndexAcq.buildFromScratch = 2
  rw [List.count_cons_self, hmp]

/-- The three execution models exercised by the script. -/
inductive ConcMode | sequential | pooled | isolated
deriving DecidableEq

/-- Query-sample events of the script: one `draw` per
`np.random.choice(NUM_VECTORS, NUM_QUERIES, replace=False)` call
(lines 101 and 173, labelled 0 and 1 in program order) and one `runConfig`
per executed benchmark configuration, tagged with the sample it reads. -/
inductive SampleEvent
  | draw (sampleId : Nat)
  | runConfig (mode : ConcMode) (sampleId : Nat)
deriving DecidableEq

/-- Source `run_benchmark` (lines 100–137): one draw, then one configuration per
entry of `THREAD_COUNTS` — sequential for one thread, pooled otherwise —
all reading the `queries` array bound at line 101. -/
def run_benchmark_sample_events : List SampleEvent :=
  SampleEvent.draw 0 ::
    THREAD_COUNTS.map (fun t =>
      SampleEvent.runConfig
        (if t = 1 then ConcMode.sequential else ConcMode.pooled) 0)

/-- Source `test_with_multiprocessing` (lines 171–229): a fresh draw at line 173,
a single-process baseline at lines 205–207, then one isolated-processes
configuration per non-skipped entry of `[2, 4, 8]`, all reading the new
`queries` array. -/
def mp_sample_events (cpu_count : Nat) : List SampleEvent :=
  SampleEvent.draw 1 :: SampleEvent.runConfig ConcMode.sequential 1 ::
    (PROC_COUNTS.filter (fun p => p ≤ cpu_count)).map
      (fun _ => SampleEvent.runConfig ConcMode.isolated 1)

/-- The sample events of a full `__main__` run (lines 250–253). -/
def program_sample_events (cpu_count : Nat) : List SampleEvent :=
  run_benchmark_sample_events ++ mp_sample_events cpu_count

/-- Whether an event is a query-sample draw. -/
def isDraw : SampleEvent → Bool
  | SampleEvent.draw _ => true
  | SampleEvent.runConfig _ _ => false

/-- C8 counterexample: a full program run (8 CPUs) draws two query samples,
and the isolated-processes configurations read sample 1 while the
sequential baseline of the thread sweep reads sample 0. -/
theorem two_query_samples_cex :
    ((program_sample_events 8).filter isDraw).length = 2
    ∧ SampleEvent.runConfig ConcMode.sequential 0 ∈ program_sample_events 8
    ∧ SampleEvent.runConfig ConcMode.isolated 1 ∈ program_sample_events 8
    ∧ (0 : Nat) ≠ 1 := by decide

/-- C8 amended: each of the two sweeps draws its own sample exactly once
before its configurations run, and every configuration within a sweep
reads that sweep's sample verbatim — sample 0 for the sequential/pooled
sweep, sample 1 for the baseline and isolated-processes sweep. -/
theorem sample_fixed_within_sweep (cpu_count : Nat) :
    (run_benchmark_sample_events.filter isDraw).length = 1
    ∧ ((mp_sample_events cpu_count).filter isDraw).length = 1
    ∧ (∀ m i, SampleEvent.runConfig m i ∈ run_benchmark_sample_events → i = 0)
    ∧ (∀ m i, SampleEvent.runConfig m i ∈ mp_sample_events cpu_count → i = 1) := by
  refine ⟨by decide, ?_, ?_, ?_⟩
  · have hmap : ((PROC_COUNTS.filter (fun p => p ≤ cpu_count)).map
        (fun _ => SampleEvent.runConfig ConcMode.isolated 1)).filter isDraw
          = [] := by
      rw [List.filter_eq_nil_iff]
      intro a ha
      obtain ⟨b, _, rfl⟩ := List.mem_map.mp ha
      decide
    simp only [mp_sample_events, List.filter_cons, hmap]
    rfl
  · intro m i hmem
    simp only [run_benchmark_sample_events, List.mem_cons, List.mem_map] at hmem
    rcases hmem with hmem | ⟨t, _, hmem⟩
    · exact SampleEvent.noConfusion hmem
    · simp only [SampleEvent.runConfig.injEq] at hmem
      exact hmem.2.symm
  · intro m i hmem
    simp only [mp_sample_events, List.mem_cons, List.mem_map] at hmem
    rcases hmem with hmem | hmem | ⟨p, _, hmem⟩
    · exact SampleEvent.noConfusion hmem
    · simp only [SampleEvent.runConfig.injEq] at hmem
      exact hmem.2
    · simp only [SampleEvent.runConfig.injEq] at hmem
      exact hmem.2.symm

/-- Witness for the amended C8: the isolated configurations of an 8-CPU
run read sample 1. -/
theorem sample_fixed_within_sweep_witness :
    SampleEvent.runConfig ConcMode.isolated 1 ∈ mp_sample_events 8
    ∧ (1 : Nat) = 1 :=
  ⟨by decide,
    (sample_fixed_within_sweep 8).2.2.2 ConcMode.isolated 1 (by decide)⟩

/-- One verse record as built by `load_bible_verses`
(`generate_embeddings.py` lines 22–28): the id is
`f"{parts[0]}_{parts[1]}:{parts[2]}"`, chapter and verse number are
`int(...)` conversions, text is the fourth field. -/
structure Verse where
  vid : String
  book : String
  chapter : Int
  vnum : Int
  text : String
deriving DecidableEq

/-- Python truthiness of the `limit` argument (`None` or an int):
`None` and `0` are falsy, any other int is truthy. -/
def truthy : Option Nat → Bool
  | none => false
  | some n => n != 0

/-- Accumulator pass over a decimal digit string. -/
def digitsValAux : List Char → Nat → Option Nat
  | [], acc => some acc
  | c :: cs, acc =>
    if c.isDigit then digitsValAux cs (acc * 10 + (c.toNat - 48)) else none

/-- The value of a non-empty all-digit character list. -/
def digitsVal : List Char → Option Nat
  | [] => none
  | cs => digitsValAux cs 0

/-- Python `int()` on a decimal string literal, with an optional leading
minus sign; `none` models the `ValueError` raised on anything else (the
data files carry plain decimal chapter and verse numbers). -/
def pyInt (s : String) : Option Int :=
  match s.data with
  | '-' :: cs => (digitsVal cs).map (fun n => -(n : Int))
  | cs => (digitsVal cs).map (fun n => (n : Int))

/-- Building one verse from the four tab-separated fields of a line
(lines 21–28).  `pyInt` models Python `int()`; `none` models the uncaught
`ValueError` raised on a non-numeric chapter or verse field. -/
def mkVerse : List String → Option Verse
  | [b, c, v, t] =>
    match pyInt c, pyInt v with
    | some ci, some vi =>
        some ⟨b ++ "_" ++ c ++ ":" ++ v, b, ci, vi, t⟩
    | _, _ => none
  | _ => none

/-- The enumerate loop of `load_bible_verses` (lines 16–28), over the
stripped tab-split lines: the loop breaks once `limit` is truthy and the
running index `i` has reached it, keeps exactly the lines with four
fields, and propagates a `ValueError` (`none`) from `int()`. -/
def load_verses_go (limit : Option Nat) : Nat → List (List String) → Option (List Verse)
  | _, [] => some []
  | i, parts :: rest =>
    if truthy limit && decide (limit.getD 0 ≤ i) then some []
    else if parts.length = 4 then
      match mkVerse parts with
      | none => none
      | some v => (load_verses_go limit (i + 1) rest).map (fun vs => v :: vs)
    else load_verses_go limit (i + 1) rest

/-- Function `load_bible_verses(filepath, limit)` from `generate_embeddings.py`
lines 13–29 (the copy in `generate_embeddings_large.py` lines 23–39 is
identical), with the file given as its list of tab-split stripped lines. -/
def load_bible_verses (lines : List (List String)) (limit : Option Nat) :
    Option (List Verse) :=
  load_verses_go limit 0 lines

/-- A falsy `limit` never stops the loop, so the result does not depend on
whether it was `None` or `0`. -/
theorem load_verses_go_falsy (limit : Option Nat) (hf : truthy limit = false) :
    ∀ (i : Nat) (lines : List (List String)),
      load_verses_go limit i lines = load_verses_go none i lines := by
  intro i lines
  induction lines generalizing i with
  | nil => rfl
  | cons parts rest ih =>
    have hn : truthy none = false := rfl
    simp only [load_verses_go, hf, hn, Bool.false_and, ih]

/-- With no limit, the loop keeps exactly the four-field lines. -/
theorem load_verses_go_none (lines : List (List String))
    (hp : ∀ l ∈ lines, l.length = 4 → (mkVerse l).isSome) :
    ∀ i : Nat, load_verses_go none i lines
      = some ((lines.filter (fun l => l.length = 4)).filterMap mkVerse) := by
  induction lines with
  | nil => intro i; rfl
  | cons parts rest ih =>
    intro i
    have hrest : ∀ l ∈ rest, l.length = 4 → (mkVerse l).isSome := by
      intro l hl
      exact hp l (List.mem_cons_of_mem _ hl)
    by_cases h4 : parts.length = 4
    · obtain ⟨v, hv⟩ := Option.isSome_iff_exists.mp
        (hp parts (List.mem_cons_self _ _) h4)
      simp [load_verses_go, truthy, h4, hv, ih hrest, List.filter_cons,
        List.filterMap_cons]
    · simp [load_verses_go, truthy, h4, ih hrest, List.filter_cons]

/-- C10: when every four-field line parses, `limit = 0` behaves exactly
like `limit = None` — the truthiness guard never fires — and the function
returns a verse for every well-formed (four tab-separated fields) line of
the file, in order. -/
theorem load_verses_zero_limit (lines : List (List String))
    (hp : ∀ l ∈ lines, l.length = 4 → (mkVerse l).isSome) :
    load_bible_verses lines (some 0) = load_bible_verses lines none
    ∧ load_bible_verses lines none
      = some ((lines.filter (fun l => l.length = 4)).filterMap mkVerse) := by
  constructor
  · exact load_verses_go_falsy (some 0) (by decide) 0 lines
  · exact load_verses_go_none lines hp 0

/-- Witness for C10: a two-line file with one well-formed and one
malformed line. -/
theorem load_verses_zero_limit_witness :
    (∀ l ∈ [["Gen", "1", "1", "kezdetben"], ["rossz"]],
      l.length = 4 → (mkVerse l).isSome)
    ∧ (load_bible_verses [["Gen", "1", "1", "kezdetben"], ["rossz"]] (some 0)
          = load_bible_verses [["Gen", "1", "1", "kezdetben"], ["rossz"]] none
        ∧ load_bible_verses [["Gen", "1", "1", "kezdetben"], ["rossz"]] none
          = some (([["Gen", "1", "1", "kezdetben"], ["rossz"]].filter
              (fun l => l.length = 4)).filterMap mkVerse)) :=
  ⟨by decide,
    load_verses_zero_limit [["Gen", "1", "1", "kezdetben"], ["rossz"]] (by decide)⟩

end HnswBench
